import Mathlib

/-!
Verification of the FlashcardLM core: the SuperMemo-2 scheduler
(`src/services/srsService.ts`) and the review-session engine
(`src/components/ReviewSession.tsx`), shallowly embedded in Lean.

Modelling conventions:
* JavaScript numbers are modelled by `ℚ` (all arithmetic the claims touch is
  exact in both `ℚ` and IEEE doubles at the concrete values involved);
  counters (`repetition`, `quality`) by `ℤ`, list positions by `ℕ`.
* `Math.round x` is `⌊x + 1/2⌋` (JS rounds half towards +∞).
* Timestamps are a single abstract clock `now : ℚ`; the source's
  calendar-day arithmetic `now.setDate(now.getDate() + interval)` is
  modelled as `now + interval` on a day-granularity clock.  No claim
  constrains the value of `dueDate` beyond this.
* React `useState` state is gathered in a `SessionState` record; each event
  handler becomes a function from state to state (plus a list of emitted
  callback events where a claim mentions them).
-/

namespace FlashcardLM

/-- JS `Math.round`: round to the nearest integer, halves toward +∞. -/
def jsRound (x : ℚ) : ℤ := ⌊x + 1/2⌋

/-- `SRData` from `src/types.ts`: per-card spaced-repetition state. -/
structure SRData where
  interval : ℚ
  repetition : ℤ
  efactor : ℚ
  dueDate : ℚ
  deriving Repr, DecidableEq

/-- `calculateNewSRS` from `src/services/srsService.ts` (SM-2 variant).
`now` stands for the wall clock read inside the function. -/
def calculateNewSRS (now : ℚ) (currentSrs : SRData) (quality : ℤ) : SRData :=
  let i0 := currentSrs.interval
  let r0 := currentSrs.repetition
  let e0 := currentSrs.efactor
  let ir : ℚ × ℤ :=
    if 3 ≤ quality then
      (if r0 = 0 then (1 : ℚ)
       else if r0 = 1 then (6 : ℚ)
       else (jsRound (i0 * e0) : ℚ),
       r0 + 1)
    else
      (1, 0)
  let e1 : ℚ := e0 + (1/10 - ((5 : ℚ) - (quality : ℚ)) * (8/100 + ((5 : ℚ) - (quality : ℚ)) * (2/100)))
  let e2 : ℚ := if e1 < 13/10 then 13/10 else e1
  { interval := ir.1
    repetition := ir.2
    efactor := e2
    dueDate := now + ir.1 }

/-- `initialSRS` from `src/services/srsService.ts`. -/
def initialSRS (now : ℚ) : SRData :=
  { interval := 0, repetition := 0, efactor := 5/2, dueDate := now }

/-- `OcclusionRect` from `src/types.ts`. -/
structure OcclusionRect where
  id : String
  x : ℚ
  y : ℚ
  width : ℚ
  height : ℚ
  deriving Repr, DecidableEq

/-- The `type` discriminant of `Flashcard` from `src/types.ts`. -/
inductive CardType where
  | basic
  | image_occlusion
  | cloze
  deriving Repr, DecidableEq

/-- `Flashcard` from `src/types.ts`. -/
structure Flashcard where
  id : String
  deckId : String
  type : CardType
  front : String
  back : String
  image : Option String
  occlusions : Option (List OcclusionRect)
  clozeDeletionIndex : Option ℤ
  srs : SRData
  createdAt : ℚ
  deriving Repr, DecidableEq

/-- `ReviewProgress` from `src/types.ts`: the persisted resumable snapshot. -/
structure ReviewProgress where
  cardIds : List String
  currentIndex : ℕ
  isShuffled : Bool
  deriving Repr, DecidableEq

/-- The `studyMode` prop of `ReviewSession`. -/
inductive StudyMode where
  | standard
  | cram
  deriving Repr, DecidableEq

/-- The `useState` pieces of `ReviewSession` that the claims mention.
`isInit` models the component's initialization flag. -/
structure SessionState where
  queue : List Flashcard
  currentCardIndex : ℕ
  isFlipped : Bool
  visibleOcclusions : List String
  isInit : Bool
  isShuffled : Bool
  deriving Repr, DecidableEq

/-- The creation-timestamp order used by `sort((a, b) => a.createdAt - b.createdAt)`. -/
def byCreated (a b : Flashcard) : Prop := a.createdAt ≤ b.createdAt

instance : DecidableRel byCreated := fun a b =>
  inferInstanceAs (Decidable (a.createdAt ≤ b.createdAt))

instance : IsTotal Flashcard byCreated := ⟨fun a b => le_total a.createdAt b.createdAt⟩

instance : IsTrans Flashcard byCreated := ⟨fun _ _ _ h h' => le_trans h h'⟩

/-- The fresh-build arm of the initialization effect
(`ReviewSession.tsx` lines 132-146): in `cram` mode every card, in
`standard` mode only due cards, sorted by creation timestamp.  The JS
stable sort is modelled by `List.insertionSort` (stable and sorted, hence
extensionally the JS result). -/
def buildFreshQueue (cards : List Flashcard) (studyMode : StudyMode) (now : ℚ) : List Flashcard :=
  if 0 < cards.length then
    let cardsToReview : List Flashcard :=
      match studyMode with
      | StudyMode.cram => cards
      | StudyMode.standard => cards.filter (fun c => decide (c.srs.dueDate ≤ now))
    if 0 < cardsToReview.length then
      List.insertionSort byCreated cardsToReview
    else []
  else []

/-- The resume arm of the initialization effect (`ReviewSession.tsx` lines
118-120): map each stored id to the matching card and drop ids that no
longer resolve. -/
def restoreQueue (cards : List Flashcard) (p : ReviewProgress) : List Flashcard :=
  p.cardIds.filterMap (fun i => cards.find? (fun c => c.id == i))

/-- The whole initialization effect (`ReviewSession.tsx` lines 113-148),
run on the component's initial state (empty queue, index 0, unflipped,
nothing revealed, not shuffled). -/
def initSession (cards : List Flashcard) (studyMode : StudyMode) (now : ℚ)
    (initialProgress : Option ReviewProgress) : SessionState :=
  let s0 : SessionState :=
    { queue := [], currentCardIndex := 0, isFlipped := false,
      visibleOcclusions := [], isInit := false, isShuffled := false }
  match initialProgress with
  | some p =>
      let rq := restoreQueue cards p
      if 0 < rq.length ∧ p.currentIndex < rq.length then
        { s0 with queue := rq, currentCardIndex := p.currentIndex,
                  isShuffled := p.isShuffled, isInit := true }
      else
        { s0 with queue := buildFreshQueue cards studyMode now, isInit := true }
  | none => { s0 with queue := buildFreshQueue cards studyMode now, isInit := true }

/-- The auto-save effect (`ReviewSession.tsx` lines 151-159): the snapshot
handed to `onSaveProgress`. -/
def saveProgress (st : SessionState) : ReviewProgress :=
  { cardIds := st.queue.map (fun c => c.id),
    currentIndex := st.currentCardIndex,
    isShuffled := st.isShuffled }

/-- The reconciliation effect (`ReviewSession.tsx` lines 103-110): refresh
each queued card from the card list by identity, keeping the entry as-is
when the id no longer resolves. -/
def reconcileQueue (cards : List Flashcard) (st : SessionState) : SessionState :=
  if 0 < st.queue.length then
    { st with queue :=
        st.queue.map (fun q => (cards.find? (fun c => c.id == q.id)).getD q) }
  else st

/-- `handleNext` (`ReviewSession.tsx` lines 183-189). -/
def handleNext (st : SessionState) : SessionState :=
  if st.currentCardIndex < st.queue.length - 1 then
    { st with isFlipped := false, visibleOcclusions := [],
              currentCardIndex := st.currentCardIndex + 1 }
  else st

/-- Callback events `ReviewSession` emits to its collaborators. -/
inductive Event where
  | updateCard (card : Flashcard)
  | clearProgress
  | finish
  deriving Repr, DecidableEq

/-- `handleRating` (`ReviewSession.tsx` lines 199-210): the resulting state
together with the emitted callback events, in emission order. -/
def handleRating (now : ℚ) (rating : ℤ) (st : SessionState) : SessionState × List Event :=
  match st.queue[st.currentCardIndex]? with
  | none => (st, [])
  | some card =>
      let updated : Flashcard := { card with srs := calculateNewSRS now card.srs rating }
      if st.currentCardIndex = st.queue.length - 1 then
        (st, [Event.updateCard updated, Event.clearProgress, Event.finish])
      else
        (handleNext st, [Event.updateCard updated])

/-- The per-rectangle reveal `onClick` (`ReviewSession.tsx` line 555):
append the rectangle id to `visibleOcclusions` only on an image-occlusion
card and only when the id is not already visible. -/
def revealOcclusion (occId : String) (st : SessionState) : SessionState :=
  match st.queue[st.currentCardIndex]? with
  | none => st
  | some card =>
      if card.type = CardType.image_occlusion ∧ ¬ (st.visibleOcclusions.contains occId) then
        { st with visibleOcclusions := st.visibleOcclusions ++ [occId] }
      else st

/-- `handleProgressClick` (`ReviewSession.tsx` lines 270-282); `frac` is the
raw click abscissa divided by the bar width, clamped inside the handler. -/
def handleProgressClick (frac : ℚ) (st : SessionState) : SessionState :=
  let percentage : ℚ := max 0 (min 1 frac)
  let newIndex : ℤ := ⌊percentage * (((st.queue.length : ℤ) - 1 : ℤ) : ℚ)⌋
  if newIndex = (st.currentCardIndex : ℤ) then st
  else
    { st with isFlipped := false, visibleOcclusions := [],
              currentCardIndex := newIndex.toNat }

/-- Claim C2: for every input state and every quality strictly below 3,
`calculateNewSRS` resets `repetition` to 0 and `interval` to 1, whatever
the prior interval, repetition count, or easiness factor. -/
theorem rating_below_three_resets (now : ℚ) (srs : SRData) (quality : ℤ)
    (h : quality < 3) :
    (calculateNewSRS now srs quality).repetition = 0 ∧
      (calculateNewSRS now srs quality).interval = 1 := by
  have h' : ¬ (3 ≤ quality) := not_le.mpr h
  simp [calculateNewSRS, h']

/-- Concrete instance of `rating_below_three_resets` at quality 1. -/
theorem rating_below_three_resets_witness :
    (1 : ℤ) < 3 ∧
      ((calculateNewSRS 0 (initialSRS 0) 1).repetition = 0 ∧
        (calculateNewSRS 0 (initialSRS 0) 1).interval = 1) :=
  ⟨by decide, rating_below_three_resets 0 (initialSRS 0) 1 (by decide)⟩

/-- Claim C3: on any input satisfying the data-model invariant
(`efactor ≥ 1.3`, `interval ≥ 0`) and any quality in 0..5,
`calculateNewSRS` returns a state satisfying the invariant again (the
function is total by construction, so it has no failure mode). -/
theorem srs_invariant_preserved (now : ℚ) (srs : SRData) (quality : ℤ)
    (hef : 13/10 ≤ srs.efactor) (hint : 0 ≤ srs.interval)
    (h0 : 0 ≤ quality) (h5 : quality ≤ 5) :
    13/10 ≤ (calculateNewSRS now srs quality).efactor ∧
      0 ≤ (calculateNewSRS now srs quality).interval := by
  constructor
  · show (13 : ℚ)/10 ≤ (if _ < (13 : ℚ)/10 then (13 : ℚ)/10 else _)
    split
    · exact le_refl _
    · exact le_of_not_lt (by assumption)
  · show (0 : ℚ) ≤ (if 3 ≤ quality then _ else ((1 : ℚ), (0 : ℤ))).1
    split
    · show (0 : ℚ) ≤ (if srs.repetition = 0 then (1 : ℚ)
        else if srs.repetition = 1 then (6 : ℚ)
        else (jsRound (srs.interval * srs.efactor) : ℚ))
      split
      · norm_num
      · split
        · norm_num
        · have hprod : (0 : ℚ) ≤ srs.interval * srs.efactor :=
            mul_nonneg hint (le_trans (by norm_num) hef)
          have hfl : (0 : ℤ) ≤ jsRound (srs.interval * srs.efactor) :=
            Int.floor_nonneg.mpr (by linarith)
          exact_mod_cast hfl
    · norm_num

/-- Concrete instance of `srs_invariant_preserved` at the fresh state and
quality 5. -/
theorem srs_invariant_preserved_witness :
    ((13 : ℚ)/10 ≤ (initialSRS 0).efactor ∧ (0 : ℚ) ≤ (initialSRS 0).interval ∧
        (0 : ℤ) ≤ 5 ∧ (5 : ℤ) ≤ 5) ∧
      (13/10 ≤ (calculateNewSRS 0 (initialSRS 0) 5).efactor ∧
        0 ≤ (calculateNewSRS 0 (initialSRS 0) 5).interval) :=
  ⟨by refine ⟨by norm_num [initialSRS], by norm_num [initialSRS], by decide, by decide⟩,
    srs_invariant_preserved 0 (initialSRS 0) 5 (by norm_num [initialSRS])
      (by norm_num [initialSRS]) (by decide) (by decide)⟩

/-- Claim C4: starting from the fresh state `{interval 0, repetition 0,
efactor 2.5}`, three successive quality-4 gradings yield intervals 1, 6,
and `round (6 * newEfactor)` where `newEfactor` is the easiness factor of
the third result, with repetitions 1 and 2 after the first two steps. -/
theorem good_rating_chain (d n1 n2 n3 : ℚ) :
    let s0 : SRData := { interval := 0, repetition := 0, efactor := 5/2, dueDate := d }
    let s1 := calculateNewSRS n1 s0 4
    let s2 := calculateNewSRS n2 s1 4
    let s3 := calculateNewSRS n3 s2 4
    s1.interval = 1 ∧ s1.repetition = 1 ∧
      s2.interval = 6 ∧ s2.repetition = 2 ∧
      s3.interval = (jsRound (6 * s3.efactor) : ℚ) := by
  norm_num [calculateNewSRS, jsRound]

/-- A basic card with the given id, creation timestamp and due date, used
for concrete instances (the easiness factor is irrelevant to the session
claims and kept an integer so that kernel evaluation stays cheap). -/
def exCard (i : String) (created due : ℚ) : Flashcard :=
  { id := i, deckId := "d", type := CardType.basic, front := "", back := "",
    image := none, occlusions := none, clozeDeletionIndex := none,
    srs := { interval := 0, repetition := 0, efactor := 2, dueDate := due },
    createdAt := created }

def cardA : Flashcard := exCard "a" 0 0

def cardB : Flashcard := exCard "b" 1 0

def cexCards : List Flashcard := [cardA, cardB]

/-- A stored snapshot whose second card identity dangles. -/
def pDangling : ReviewProgress :=
  { cardIds := ["b", "x"], currentIndex := 0, isShuffled := false }

/-- A stored snapshot all of whose identities resolve in `cexCards`. -/
def pGood : ReviewProgress :=
  { cardIds := ["b", "a"], currentIndex := 1, isShuffled := true }

/-- A 5-card deck of which exactly 2 cards are due at time 100. -/
def fiveCards : List Flashcard :=
  [exCard "c1" 1 50, exCard "c2" 2 200, exCard "c3" 3 80,
   exCard "c4" 4 300, exCard "c5" 5 400]

theorem find?_isSome_eq_any (p : Flashcard → Bool) (cards : List Flashcard) :
    (cards.find? p).isSome = cards.any p := by
  induction cards with
  | nil => rfl
  | cons a l ih =>
      by_cases h : p a = true
      · simp [List.find?, h]
      · simp only [Bool.not_eq_true] at h
        simp [List.find?, h, ih]

theorem restoreQueue_map_id (cards : List Flashcard) (p : ReviewProgress) :
    (restoreQueue cards p).map (fun c => c.id) =
      p.cardIds.filter (fun i => cards.any (fun c => c.id == i)) := by
  unfold restoreQueue
  induction p.cardIds with
  | nil => rfl
  | cons i l ih =>
      rw [List.filterMap_cons, List.filter_cons]
      rw [← find?_isSome_eq_any (fun c => c.id == i) cards]
      cases hfind : cards.find? (fun c => c.id == i) with
      | none => simpa [hfind] using ih
      | some c =>
          have hc : c.id = i := by
            have := List.find?_some hfind
            exact eq_of_beq this
          simp [hfind, hc, ih]

theorem find?_id_self (cards : List Flashcard)
    (hids : (cards.map (fun c => c.id)).Nodup) (q : Flashcard) (hq : q ∈ cards) :
    cards.find? (fun c => c.id == q.id) = some q := by
  induction cards with
  | nil => cases hq
  | cons a l ih =>
      rw [List.map_cons, List.nodup_cons] at hids
      rcases List.mem_cons.mp hq with h | h
      · subst h
        simp [List.find?]
      · have hne : (a.id == q.id) = false := by
          apply beq_eq_false_iff_ne.mpr
          intro hcontra
          exact hids.1 (hcontra ▸ List.mem_map_of_mem (fun c => c.id) h)
        rw [List.find?_cons, hne]
        exact ih hids.2 h

theorem filterMap_self (l : List Flashcard) (f : Flashcard → Option Flashcard)
    (h : ∀ a ∈ l, f a = some a) : l.filterMap f = l := by
  induction l with
  | nil => rfl
  | cons a t ih =>
      rw [List.filterMap_cons, h a (List.mem_cons_self a t),
        ih (fun b hb => h b (List.mem_cons_of_mem a hb))]

/-- Claim C1 counterexample: with cards `a`, `b` (both due) and a stored
snapshot referencing `b` and the dangling identity `x`, initialization
still restores (queue `[b]`) instead of discarding the snapshot and
building the fresh queue `[a, b]`. -/
theorem init_keeps_partially_dangling_resume :
    (∃ i ∈ pDangling.cardIds, ∀ c ∈ cexCards, c.id ≠ i) ∧
      (initSession cexCards StudyMode.standard 0 (some pDangling)).queue = [cardB] ∧
      buildFreshQueue cexCards StudyMode.standard 0 = [cardA, cardB] ∧
      (initSession cexCards StudyMode.standard 0 (some pDangling)).queue ≠
        buildFreshQueue cexCards StudyMode.standard 0 := by
  refine ⟨⟨"x", by decide, by decide⟩, by decide, by decide, by decide⟩

/-- Claim C1 (amended): initialization drops each dangling identity
individually; it restores queue, position and shuffle flag whenever at
least one identity resolves and the stored position is within the bounds
of the filtered queue, and otherwise discards the snapshot and behaves
exactly like initialization without stored progress. -/
theorem init_restore_characterization (cards : List Flashcard)
    (studyMode : StudyMode) (now : ℚ) (p : ReviewProgress) :
    (0 < (restoreQueue cards p).length →
      p.currentIndex < (restoreQueue cards p).length →
        (initSession cards studyMode now (some p)).queue = restoreQueue cards p ∧
        (initSession cards studyMode now (some p)).currentCardIndex = p.currentIndex ∧
        (initSession cards studyMode now (some p)).isShuffled = p.isShuffled ∧
        (restoreQueue cards p).map (fun c => c.id) =
          p.cardIds.filter (fun i => cards.any (fun c => c.id == i))) ∧
    (¬ (0 < (restoreQueue cards p).length ∧
          p.currentIndex < (restoreQueue cards p).length) →
      initSession cards studyMode now (some p) =
        initSession cards studyMode now none) := by
  constructor
  · intro h1 h2
    have hcond : 0 < (restoreQueue cards p).length ∧
        p.currentIndex < (restoreQueue cards p).length := ⟨h1, h2⟩
    refine ⟨?_, ?_, ?_, restoreQueue_map_id cards p⟩ <;>
      simp [initSession, if_pos hcond]
  · intro h
    simp [initSession, if_neg h]

/-- Concrete instance of `init_restore_characterization`: a fully
resolvable snapshot at position 1 over `cexCards` is restored verbatim. -/
theorem init_restore_characterization_witness :
    (initSession cexCards StudyMode.standard 0 (some pGood)).queue =
        restoreQueue cexCards pGood ∧
      (initSession cexCards StudyMode.standard 0 (some pGood)).currentCardIndex =
        pGood.currentIndex ∧
      (initSession cexCards StudyMode.standard 0 (some pGood)).isShuffled =
        pGood.isShuffled ∧
      (restoreQueue cexCards pGood).map (fun c => c.id) =
        pGood.cardIds.filter (fun i => cexCards.any (fun c => c.id == i)) :=
  (init_restore_characterization cexCards StudyMode.standard 0 pGood).1
    (by decide) (by decide)

theorem buildFreshQueue_cram (cards : List Flashcard) (now : ℚ) :
    buildFreshQueue cards StudyMode.cram now =
      List.insertionSort byCreated cards := by
  unfold buildFreshQueue
  by_cases hc : 0 < cards.length
  · simp [hc]
  · have hnil : cards = [] := List.length_eq_zero.mp (by omega)
    subst hnil
    simp

theorem buildFreshQueue_standard (cards : List Flashcard) (now : ℚ) :
    buildFreshQueue cards StudyMode.standard now =
      List.insertionSort byCreated
        (cards.filter (fun c => decide (c.srs.dueDate ≤ now))) := by
  unfold buildFreshQueue
  by_cases hc : 0 < cards.length
  · simp only [if_pos hc]
    by_cases hr : 0 < (cards.filter (fun c => decide (c.srs.dueDate ≤ now))).length
    · simp [hr]
    · have hnil : cards.filter (fun c => decide (c.srs.dueDate ≤ now)) = [] :=
        List.length_eq_zero.mp (by omega)
      simp [hr, hnil]
  · have hnil : cards = [] := List.length_eq_zero.mp (by omega)
    subst hnil
    simp

/-- Claim C5: when no valid stored progress is restored, the freshly built
queue contains every card in cram mode, exactly the due cards in standard
mode, and is sorted by creation timestamp ascending; in particular the
5-card deck `fiveCards` with 2 due cards yields queue lengths 2 (standard)
and 5 (cram). -/
theorem fresh_queue_contents (cards : List Flashcard) (studyMode : StudyMode)
    (now : ℚ) (prog : Option ReviewProgress)
    (h : ∀ p, prog = some p →
      ¬ (0 < (restoreQueue cards p).length ∧
          p.currentIndex < (restoreQueue cards p).length)) :
    (studyMode = StudyMode.cram →
      ∀ c, c ∈ (initSession cards studyMode now prog).queue ↔ c ∈ cards) ∧
    (studyMode = StudyMode.standard →
      ∀ c, c ∈ (initSession cards studyMode now prog).queue ↔
        c ∈ cards ∧ c.srs.dueDate ≤ now) ∧
    List.Sorted byCreated (initSession cards studyMode now prog).queue ∧
    ((initSession fiveCards StudyMode.standard 100 none).queue.length = 2 ∧
      (initSession fiveCards StudyMode.cram 100 none).queue.length = 5) := by
  have hq : (initSession cards studyMode now prog).queue =
      buildFreshQueue cards studyMode now := by
    cases prog with
    | none => rfl
    | some p => simp [initSession, if_neg (h p rfl)]
  rw [hq]
  refine ⟨?_, ?_, ?_, by decide, by decide⟩
  · rintro rfl c
    rw [buildFreshQueue_cram]
    exact (List.perm_insertionSort byCreated cards).mem_iff
  · rintro rfl c
    rw [buildFreshQueue_standard,
      (List.perm_insertionSort byCreated _).mem_iff, List.mem_filter]
    simp
  · cases studyMode with
    | cram =>
        rw [buildFreshQueue_cram]
        exact List.sorted_insertionSort byCreated cards
    | standard =>
        rw [buildFreshQueue_standard]
        exact List.sorted_insertionSort byCreated _

/-- Concrete instance of `fresh_queue_contents` at `fiveCards` with no
stored progress: the fresh queue is sorted and has the stated lengths. -/
theorem fresh_queue_contents_witness :
    List.Sorted byCreated (initSession fiveCards StudyMode.standard 100 none).queue ∧
      ((initSession fiveCards StudyMode.standard 100 none).queue.length = 2 ∧
        (initSession fiveCards StudyMode.cram 100 none).queue.length = 5) :=
  ⟨(fresh_queue_contents fiveCards StudyMode.standard 100 none
      (fun p hp => by cases hp)).2.2.1,
    (fresh_queue_contents fiveCards StudyMode.standard 100 none
      (fun p hp => by cases hp)).2.2.2⟩

/-- Claim C7: for any session state whose queue cards all come from a card
list with distinct identities and whose position is in bounds,
re-initializing from the auto-saved snapshot reproduces the same queue,
the same position, and the same shuffle flag. -/
theorem resume_round_trip (cards : List Flashcard) (studyMode : StudyMode)
    (now : ℚ) (st : SessionState)
    (hids : (cards.map (fun c => c.id)).Nodup)
    (hsub : ∀ c ∈ st.queue, c ∈ cards)
    (hpos : st.currentCardIndex < st.queue.length) :
    (initSession cards studyMode now (some (saveProgress st))).queue = st.queue ∧
      (initSession cards studyMode now (some (saveProgress st))).currentCardIndex =
        st.currentCardIndex ∧
      (initSession cards studyMode now (some (saveProgress st))).isShuffled =
        st.isShuffled := by
  have hrq : restoreQueue cards (saveProgress st) = st.queue := by
    unfold restoreQueue saveProgress
    rw [List.filterMap_map]
    exact filterMap_self st.queue _
      (fun q hq => find?_id_self cards hids q (hsub q hq))
  have hcond : 0 < (restoreQueue cards (saveProgress st)).length ∧
      (saveProgress st).currentIndex < (restoreQueue cards (saveProgress st)).length := by
    rw [hrq]
    exact ⟨Nat.lt_of_le_of_lt (Nat.zero_le _) hpos, hpos⟩
  have hstep : initSession cards studyMode now (some (saveProgress st)) =
      { queue := restoreQueue cards (saveProgress st),
        currentCardIndex := (saveProgress st).currentIndex,
        isFlipped := false, visibleOcclusions := [], isInit := true,
        isShuffled := (saveProgress st).isShuffled } := by
    simp only [initSession]
    rw [if_pos hcond]
  rw [hstep, hrq]
  exact ⟨rfl, rfl, rfl⟩

/-- Concrete instance of `resume_round_trip` at position 1 of a 2-card
queue over `cexCards`. -/
theorem resume_round_trip_witness :
    (initSession cexCards StudyMode.standard 0
        (some (saveProgress
          { queue := [cardA, cardB], currentCardIndex := 1, isFlipped := false,
            visibleOcclusions := [], isInit := true, isShuffled := false }))).queue =
      [cardA, cardB] ∧
    (initSession cexCards StudyMode.standard 0
        (some (saveProgress
          { queue := [cardA, cardB], currentCardIndex := 1, isFlipped := false,
            visibleOcclusions := [], isInit := true, isShuffled := false }))).currentCardIndex = 1 ∧
    (initSession cexCards StudyMode.standard 0
        (some (saveProgress
          { queue := [cardA, cardB], currentCardIndex := 1, isFlipped := false,
            visibleOcclusions := [], isInit := true, isShuffled := false }))).isShuffled = false :=
  resume_round_trip cexCards StudyMode.standard 0
    { queue := [cardA, cardB], currentCardIndex := 1, isFlipped := false,
      visibleOcclusions := [], isInit := true, isShuffled := false }
    (by decide) (by decide) (by decide)

theorem getD_find?_id (cards : List Flashcard) (q : Flashcard) :
    ((cards.find? (fun c => c.id == q.id)).getD q).id = q.id := by
  cases hfind : cards.find? (fun c => c.id == q.id) with
  | none => rfl
  | some c =>
      have hbeq := List.find?_some hfind
      simpa using eq_of_beq hbeq

/-- Claim C8: reconciliation with a changed card list preserves the queue
length, the per-position card identities, and the current position;
entries whose identity resolves in the new list are replaced by the found
card and entries whose identity no longer resolves are kept as they were. -/
theorem reconcile_preserves_shape (cards : List Flashcard) (st : SessionState) :
    (reconcileQueue cards st).queue.length = st.queue.length ∧
    (reconcileQueue cards st).currentCardIndex = st.currentCardIndex ∧
    (reconcileQueue cards st).queue.map (fun c => c.id) =
      st.queue.map (fun c => c.id) ∧
    (∀ i : ℕ, (reconcileQueue cards st).queue[i]? =
      (st.queue[i]?).map (fun q => (cards.find? (fun c => c.id == q.id)).getD q)) ∧
    (∀ i : ℕ, ∀ q, st.queue[i]? = some q →
      cards.find? (fun c => c.id == q.id) = none →
        (reconcileQueue cards st).queue[i]? = some q) ∧
    (∀ i : ℕ, ∀ q c, st.queue[i]? = some q →
      cards.find? (fun c => c.id == q.id) = some c →
        (reconcileQueue cards st).queue[i]? = some c) := by
  have hqueue : (reconcileQueue cards st).queue =
      st.queue.map (fun q => (cards.find? (fun c => c.id == q.id)).getD q) := by
    unfold reconcileQueue
    by_cases hlen : 0 < st.queue.length
    · rw [if_pos hlen]
    · rw [if_neg hlen]
      have hnil : st.queue = [] := List.length_eq_zero.mp (by omega)
      rw [hnil]
      rfl
  have hidx : (reconcileQueue cards st).currentCardIndex = st.currentCardIndex := by
    unfold reconcileQueue
    by_cases hlen : 0 < st.queue.length
    · rw [if_pos hlen]
    · rw [if_neg hlen]
  have hget : ∀ i : ℕ, (reconcileQueue cards st).queue[i]? =
      (st.queue[i]?).map (fun q => (cards.find? (fun c => c.id == q.id)).getD q) := by
    intro i
    rw [hqueue, List.getElem?_map]
  refine ⟨?_, hidx, ?_, hget, ?_, ?_⟩
  · rw [hqueue, List.length_map]
  · rw [hqueue, List.map_map]
    exact List.map_congr_left (fun q _ => getD_find?_id cards q)
  · intro i q hq hfind
    rw [hget i, hq]
    simp [hfind]
  · intro i q c hq hfind
    rw [hget i, hq]
    simp [hfind]

def stReconcile : SessionState :=
  { queue := [cardA, cardB], currentCardIndex := 0, isFlipped := false,
    visibleOcclusions := [], isInit := true, isShuffled := false }

/-- Concrete instance of `reconcile_preserves_shape`: an edited version of
card `a` replaces the queue entry in place, while card `b`, absent from
the new list, stays in the queue. -/
theorem reconcile_preserves_shape_witness :
    (reconcileQueue [exCard "a" 0 7] stReconcile).queue[0]? = some (exCard "a" 0 7) ∧
      (reconcileQueue [exCard "a" 0 7] stReconcile).queue[1]? = some cardB :=
  ⟨(reconcile_preserves_shape [exCard "a" 0 7] stReconcile).2.2.2.2.2 0 cardA
      (exCard "a" 0 7) (by decide) (by decide),
    (reconcile_preserves_shape [exCard "a" 0 7] stReconcile).2.2.2.2.1 1 cardB
      (by decide) (by decide)⟩

/-- Claim C6: grading at the last queue position leaves the state as-is
and emits the progress-clear and the completion signal exactly once each;
grading at any earlier position emits exactly the card update (no clear,
no completion) and then advances like `handleNext`, moving the position
forward by one and resetting the reveal sub-state. -/
theorem grade_last_vs_advance (now : ℚ) (rating : ℤ) (st : SessionState)
    (h : st.currentCardIndex < st.queue.length) :
    (st.currentCardIndex = st.queue.length - 1 →
      (handleRating now rating st).1 = st ∧
      (handleRating now rating st).2.count Event.clearProgress = 1 ∧
      (handleRating now rating st).2.count Event.finish = 1) ∧
    (st.currentCardIndex ≠ st.queue.length - 1 →
      (handleRating now rating st).1 = handleNext st ∧
      (handleRating now rating st).1.currentCardIndex = st.currentCardIndex + 1 ∧
      (handleRating now rating st).1.isFlipped = false ∧
      (handleRating now rating st).1.visibleOcclusions = [] ∧
      (handleRating now rating st).1.queue = st.queue ∧
      (∃ card, st.queue[st.currentCardIndex]? = some card ∧
        (handleRating now rating st).2 =
          [Event.updateCard { card with srs := calculateNewSRS now card.srs rating }]) ∧
      (handleRating now rating st).2.count Event.clearProgress = 0 ∧
      (handleRating now rating st).2.count Event.finish = 0) := by
  have hsome : st.queue[st.currentCardIndex]? = some (st.queue.get ⟨st.currentCardIndex, h⟩) := by
    rw [List.getElem?_eq_getElem h]
    rfl
  set card := st.queue.get ⟨st.currentCardIndex, h⟩ with hcard
  have hunfold : handleRating now rating st =
      (if st.currentCardIndex = st.queue.length - 1 then
        (st, [Event.updateCard { card with srs := calculateNewSRS now card.srs rating },
              Event.clearProgress, Event.finish])
      else
        (handleNext st,
          [Event.updateCard { card with srs := calculateNewSRS now card.srs rating }])) := by
    unfold handleRating
    rw [hsome]
  constructor
  · intro heq
    rw [hunfold, if_pos heq]
    exact ⟨rfl, rfl, rfl⟩
  · intro hne
    have hlt : st.currentCardIndex < st.queue.length - 1 := by omega
    have hnext : handleNext st =
        { st with isFlipped := false, visibleOcclusions := [],
                  currentCardIndex := st.currentCardIndex + 1 } := by
      unfold handleNext
      rw [if_pos hlt]
    rw [hunfold, if_neg hne, hnext]
    exact ⟨rfl, rfl, rfl, rfl, rfl, ⟨card, hsome, rfl⟩, rfl, rfl⟩

def stLast : SessionState :=
  { queue := [cardA], currentCardIndex := 0, isFlipped := true,
    visibleOcclusions := [], isInit := true, isShuffled := false }

/-- Concrete instance of `grade_last_vs_advance`: grading the only card of
a 1-card queue clears progress and signals completion exactly once. -/
theorem grade_last_vs_advance_witness :
    (handleRating 0 4 stLast).1 = stLast ∧
      (handleRating 0 4 stLast).2.count Event.clearProgress = 1 ∧
      (handleRating 0 4 stLast).2.count Event.finish = 1 :=
  (grade_last_vs_advance 0 4 stLast (by decide)).1 (by decide)

/-- Claim C9: revealing a masked rectangle whose id is already visible
leaves the state unchanged, revealing twice equals revealing once, and the
visible-rectangle list never acquires duplicates. -/
theorem revealOcclusion_none (occId : String) (st : SessionState)
    (hcc : st.queue[st.currentCardIndex]? = none) :
    revealOcclusion occId st = st := by
  unfold revealOcclusion
  rw [hcc]

theorem revealOcclusion_some (occId : String) (st : SessionState) (card : Flashcard)
    (hcc : st.queue[st.currentCardIndex]? = some card) :
    revealOcclusion occId st =
      (if card.type = CardType.image_occlusion ∧
          ¬ (st.visibleOcclusions.contains occId) then
        { st with visibleOcclusions := st.visibleOcclusions ++ [occId] }
      else st) := by
  unfold revealOcclusion
  rw [hcc]

theorem contains_iff_mem_str (l : List String) (a : String) :
    l.contains a = true ↔ a ∈ l :=
  List.elem_iff

theorem reveal_region_idempotent (occId : String) (st : SessionState) :
    (occId ∈ st.visibleOcclusions → revealOcclusion occId st = st) ∧
    revealOcclusion occId (revealOcclusion occId st) = revealOcclusion occId st ∧
    (st.visibleOcclusions.Nodup →
      (revealOcclusion occId st).visibleOcclusions.Nodup) := by
  cases hcc : st.queue[st.currentCardIndex]? with
  | none =>
      have hid : revealOcclusion occId st = st := revealOcclusion_none occId st hcc
      rw [hid]
      exact ⟨fun _ => rfl, hid, fun hn => hn⟩
  | some card =>
      by_cases hcond : card.type = CardType.image_occlusion ∧
          ¬ (st.visibleOcclusions.contains occId)
      · have hstep : revealOcclusion occId st =
            { st with visibleOcclusions := st.visibleOcclusions ++ [occId] } := by
          rw [revealOcclusion_some occId st card hcc, if_pos hcond]
        have hnotmem : occId ∉ st.visibleOcclusions := by
          intro hmem
          exact hcond.2 ((contains_iff_mem_str _ _).mpr hmem)
        refine ⟨fun hmem => absurd hmem hnotmem, ?_, ?_⟩
        · have hcc2 : ({ st with visibleOcclusions := st.visibleOcclusions ++ [occId] } :
              SessionState).queue[({ st with
                visibleOcclusions := st.visibleOcclusions ++ [occId] } :
              SessionState).currentCardIndex]? = some card := hcc
          rw [hstep, revealOcclusion_some occId _ card hcc2, if_neg]
          intro hcontra
          exact hcontra.2 ((contains_iff_mem_str _ _).mpr (by simp))
        · intro hn
          rw [hstep]
          simpa [List.nodup_append] using ⟨hn, hnotmem⟩
      · have hid : revealOcclusion occId st = st := by
          rw [revealOcclusion_some occId st card hcc, if_neg hcond]
        rw [hid]
        exact ⟨fun _ => rfl, hid, fun hn => hn⟩

def occCard : Flashcard :=
  { exCard "o" 0 0 with
    type := CardType.image_occlusion,
    occlusions := some [{ id := "r1", x := 10, y := 10, width := 20, height := 20 }] }

def stReveal : SessionState :=
  { queue := [occCard], currentCardIndex := 0, isFlipped := false,
    visibleOcclusions := ["r1"], isInit := true, isShuffled := false }

/-- Concrete instance of `reveal_region_idempotent`: rectangle `r1` is
already visible, so revealing it again changes nothing and keeps the
visible list duplicate-free. -/
theorem reveal_region_idempotent_witness :
    revealOcclusion "r1" stReveal = stReveal ∧
      (revealOcclusion "r1" stReveal).visibleOcclusions.Nodup :=
  ⟨(reveal_region_idempotent "r1" stReveal).1 (by decide),
    (reveal_region_idempotent "r1" stReveal).2.2 (by decide)⟩

/-- Claim C10: a progress-bar click whose computed target index
`⌊fraction * (queueLength - 1)⌋` equals the current position leaves the
session state entirely unchanged; only when the computed index differs are
the reveal sub-state and the partial-reveal tracking reset (with the
position moved to the computed index and the queue untouched). -/
theorem jump_same_index_noop (frac : ℚ) (st : SessionState) :
    (⌊(max 0 (min 1 frac)) * (((st.queue.length : ℤ) - 1 : ℤ) : ℚ)⌋ =
        (st.currentCardIndex : ℤ) →
      handleProgressClick frac st = st) ∧
    (⌊(max 0 (min 1 frac)) * (((st.queue.length : ℤ) - 1 : ℤ) : ℚ)⌋ ≠
        (st.currentCardIndex : ℤ) →
      (handleProgressClick frac st).isFlipped = false ∧
      (handleProgressClick frac st).visibleOcclusions = [] ∧
      (handleProgressClick frac st).currentCardIndex =
        (⌊(max 0 (min 1 frac)) * (((st.queue.length : ℤ) - 1 : ℤ) : ℚ)⌋).toNat ∧
      (handleProgressClick frac st).queue = st.queue ∧
      (handleProgressClick frac st).isShuffled = st.isShuffled) := by
  constructor
  · intro heq
    unfold handleProgressClick
    rw [if_pos heq]
  · intro hne
    unfold handleProgressClick
    rw [if_neg hne]
    exact ⟨rfl, rfl, rfl, rfl, rfl⟩

def stJump : SessionState :=
  { queue := [cardA], currentCardIndex := 0, isFlipped := true,
    visibleOcclusions := [], isInit := true, isShuffled := false }

/-- Concrete instance of `jump_same_index_noop`: clicking at the far left
of the bar over a 1-card queue targets index 0, the current position, so
nothing changes (not even the flipped flag). -/
theorem jump_same_index_noop_witness :
    handleProgressClick 0 stJump = stJump :=
  (jump_same_index_noop 0 stJump).1 (by simp [stJump])

end FlashcardLM
